import Mathlib

/-!
Shallow embedding of the tap-excel repository core: schema inference
(`_infer_column_type`, `_infer_schema`), record cleaning (`_clean_record` in
the tap and `clean_record` in the connection module), and the sync loop with
its bookmark handling.  Python scalars are modelled by `RawValue`; a pandas
dataframe is an ordered association list from column name to value list.
-/

namespace TapExcel

/-- A Python/pandas scalar as it appears in a dataframe cell.  `vNull` covers
None, NaN and NaT.  `vTimestamp` carries the ISO-8601 text of the timestamp
(with a `T` separator, as produced by `Timestamp.isoformat`); `vTimedelta`
carries its `str` form.  Floats are modelled as rationals. -/
inductive RawValue where
  | vNull
  | vBool (b : Bool)
  | vInt (n : Int)
  | vFloat (q : ℚ)
  | vStr (s : String)
  | vTimestamp (iso : String)
  | vTimedelta (s : String)
deriving DecidableEq, Repr

def isNull : RawValue → Bool
  | .vNull => true
  | _ => false

def isTimestamp : RawValue → Bool
  | .vTimestamp _ => true
  | _ => false

def isBoolVal : RawValue → Bool
  | .vBool _ => true
  | _ => false

def isIntVal : RawValue → Bool
  | .vInt _ => true
  | _ => false

def isFloatVal : RawValue → Bool
  | .vFloat _ => true
  | _ => false

/-- Python truthiness of a scalar: None falsy, 0 and 0.0 falsy, the empty
string falsy, everything else truthy. -/
def truthy : RawValue → Bool
  | .vNull => false
  | .vBool b => b
  | .vInt n => n != 0
  | .vFloat q => q != 0
  | .vStr s => s != ""
  | .vTimestamp _ => true
  | .vTimedelta _ => true

/-- Python `str()` of a scalar, as used by `sample.astype(str)`.  The float
case is approximate (no claim exercises the text form of a float); `str` of a
Timestamp replaces the ISO `T` separator with a space. -/
def pyStr : RawValue → String
  | .vNull => "nan"
  | .vBool b => if b then "True" else "False"
  | .vInt n => toString n
  | .vFloat q => toString q
  | .vStr s => s
  | .vTimestamp iso => String.mk (iso.data.map (fun c => if c = 'T' then ' ' else c))
  | .vTimedelta s => s

/-- The pandas dtype that a column of Python objects materializes as when the
workbook reader builds the dataframe. -/
inductive Dtype where
  | datetime64
  | boolDt
  | int64
  | float64
  | obj
deriving DecidableEq, Repr

/-- Dtype inference for a column, following pandas object-to-dtype promotion:
all timestamps (with possible NaT) give datetime64; all booleans give bool;
all integers give int64; integers, floats and missing values give float64
(missing values promote integers to float); anything mixed stays object. -/
def colDtype (vs : List RawValue) : Dtype :=
  if vs.all (fun v => isNull v || isTimestamp v) && vs.any isTimestamp then .datetime64
  else if vs.all isBoolVal && !vs.isEmpty then .boolDt
  else if vs.all isIntVal && !vs.isEmpty then .int64
  else if vs.all (fun v => isNull v || isIntVal v || isFloatVal v) then .float64
  else .obj

def dtypeName : Dtype → String
  | .datetime64 => "datetime64[ns]"
  | .boolDt => "bool"
  | .int64 => "int64"
  | .float64 => "float64"
  | .obj => "object"

/-- `pd.api.types.is_numeric_dtype`. -/
def isNumericDtype : Dtype → Bool
  | .int64 => true
  | .float64 => true
  | .boolDt => true
  | _ => false

/-- `value % 1 == 0` for a pandas numeric value. -/
def isIntegral : RawValue → Bool
  | .vInt _ => true
  | .vBool _ => true
  | .vFloat q => q.den == 1
  | _ => false

/-- One token of the regular expressions used by `_infer_column_type`:
a fixed count of digits, or one literal character. -/
inductive Tok where
  | d (n : Nat)
  | lit (c : Char)
deriving DecidableEq, Repr

/-- `re.match` semantics for a token list: the tokens must match a prefix of
the text (the Python `Series.str.match` anchors at the start only). -/
def matchToks : List Tok → List Char → Bool
  | [], _ => true
  | .d n :: ts, cs =>
      ((cs.take n).length == n) && (cs.take n).all Char.isDigit && matchToks ts (cs.drop n)
  | .lit c :: ts, c' :: cs => c == c' && matchToks ts cs
  | .lit _ :: _, [] => false

def ymdToks : List Tok := [.d 4, .lit '-', .d 2, .lit '-', .d 2]
def mdySlashToks : List Tok := [.d 2, .lit '/', .d 2, .lit '/', .d 4]
def ymdSlashToks : List Tok := [.d 4, .lit '/', .d 2, .lit '/', .d 2]
def mdyDashToks : List Tok := [.d 2, .lit '-', .d 2, .lit '-', .d 4]
def ymdDotToks : List Tok := [.d 4, .lit '.', .d 2, .lit '.', .d 2]
def hmsToks : List Tok := [.d 2, .lit ':', .d 2, .lit ':', .d 2]
def ymdHmsToks : List Tok := ymdToks ++ [.lit ' '] ++ hmsToks

/-- The ordered `date_formats` table of `_infer_column_type`. -/
def dateFormats : List (List Tok × String) :=
  [(ymdToks, "date"), (mdySlashToks, "date"), (ymdSlashToks, "date"),
   (mdyDashToks, "date"), (ymdDotToks, "date"), (hmsToks, "time"),
   (ymdHmsToks, "date-time")]

/-- First entry of the format table (in table order) whose pattern is matched
by at least one sampled string. -/
def firstFormat (strs : List String) : Option String :=
  (dateFormats.find? (fun pf => strs.any (fun s => matchToks pf.1 s.data))).map (fun pf => pf.2)

/-- The currency regex of `_infer_column_type`: a leading currency symbol,
an optional whitespace character, one or more digits, an optional dot, any
further digits, then end of string (this one is anchored at both ends). -/
def currencyMatch (s : String) : Bool :=
  match s.data with
  | [] => false
  | c :: rest =>
      (c == '£' || c == '$' || c == '€' || c == '¥') &&
      (let rest2 := match rest with
        | c2 :: rest3 => if c2.isWhitespace then rest3 else c2 :: rest3
        | [] => []
       let ds := rest2.takeWhile Char.isDigit
       let rTail := rest2.dropWhile Char.isDigit
       !ds.isEmpty &&
         (rTail.isEmpty || (rTail.head? == some '.' && rTail.tail.all Char.isDigit)))

/-- Python `str.lower()` (over the char list, so that it reduces). -/
def pyLower (s : String) : String := String.mk (s.data.map Char.toLower)

/-- Result of `_infer_column_type`: the JSON-schema type list, the optional
`format` key, and the metadata entries `inferred_type` and `excel_dtype`
(the all-null early return carries no metadata, hence the options). -/
structure TypeInfo where
  type : List String
  format : Option String
  inferredType : Option String
  excelDtype : Option String
deriving DecidableEq, Repr

/-- The sample of `_infer_column_type`: the first 100 non-null values. -/
def sampleOf (vs : List RawValue) : List RawValue :=
  (vs.filter (fun v => !isNull v)).take 100

/-- `_infer_column_type` over a column of raw values (sample size 100).
The numeric kind is computed before the pattern scan in the code but only
consulted after it, so it is inlined at its use site here. -/
def infer_column_type (vs : List RawValue) : TypeInfo :=
  if vs.all isNull then ⟨["null", "string"], none, none, none⟩
  else if colDtype vs == .datetime64 then
    ⟨["null", "string"], some "date-time", some "datetime", some (dtypeName (colDtype vs))⟩
  else if colDtype vs == .boolDt ||
      (sampleOf vs).all
        (fun v => pyLower (pyStr v) == "true" || pyLower (pyStr v) == "false") then
    ⟨["null", "boolean"], none, some "boolean", some (dtypeName (colDtype vs))⟩
  else
    match firstFormat ((sampleOf vs).map pyStr) with
    | some fmt => ⟨["null", "string"], some fmt, some fmt, some (dtypeName (colDtype vs))⟩
    | none =>
      if ((sampleOf vs).map pyStr).any currencyMatch then
        ⟨["null", "string"], none, some "currency", some (dtypeName (colDtype vs))⟩
      else if isNumericDtype (colDtype vs) then
        if (vs.filter (fun v => !isNull v)).all isIntegral then
          ⟨["null", "integer", "string"], none, some "integer", some (dtypeName (colDtype vs))⟩
        else
          ⟨["null", "number", "string"], none, some "number", some (dtypeName (colDtype vs))⟩
      else ⟨["null", "string"], none, some "string", some (dtypeName (colDtype vs))⟩

/-! ### Record cleaning (`clean_record` in connection.py, `_clean_record` in the tap) -/

/-- Round-half-to-even on a rational, the rounding Python `round` applies to
the decimal value of a float. -/
def roundHalfEven (q : ℚ) : ℤ :=
  let f := ⌊q⌋
  let frac := q - f
  if frac < 1/2 then f
  else if 1/2 < frac then f + 1
  else if f % 2 = 0 then f else f + 1

/-- Python `round(q, p)`: round to `p` decimal digits (p may be negative). -/
def roundTo (p : ℤ) (q : ℚ) : ℚ :=
  (roundHalfEven (q * (10 : ℚ) ^ p) : ℚ) / (10 : ℚ) ^ p

/-- One value of `clean_record` (connection.py): None-like values become null,
Timestamps become their isoformat string, Timedeltas their `str` form, floats
are rounded to the given precision, everything else passes through. -/
def cleanValue (p : ℤ) : RawValue → RawValue
  | .vNull => .vNull
  | .vTimestamp iso => .vStr iso
  | .vTimedelta s => .vStr s
  | .vFloat q => .vFloat (roundTo p q)
  | v => v

/-- `clean_record(record, float_precision)` from connection.py. -/
def clean_record (p : ℤ) (r : List (String × RawValue)) : List (String × RawValue) :=
  r.map (fun kv => (kv.1, cleanValue p kv.2))

/-- One value of the tap `_clean_record`.  The float branch reads
`self.float_precision`, an attribute that `ExcelTap.__init__` never sets, so
reaching it raises AttributeError; the other branches match `clean_record`. -/
def tapCleanValue : RawValue → Except String RawValue
  | .vNull => .ok .vNull
  | .vTimestamp iso => .ok (.vStr iso)
  | .vTimedelta s => .ok (.vStr s)
  | .vFloat _ => .error "AttributeError: float_precision"
  | v => .ok v

/-- `_clean_record(row.to_dict())` in the tap sync loop. -/
def tapCleanRecord : List (String × RawValue) → Except String (List (String × RawValue))
  | [] => .ok []
  | (k, v) :: r =>
      match tapCleanValue v with
      | .error e => .error e
      | .ok v' =>
          match tapCleanRecord r with
          | .error e => .error e
          | .ok r' => .ok ((k, v') :: r')

/-! ### Dataframes and the in-place date conversion of `_infer_schema` -/

/-- A dataframe: ordered columns, each a name with its value list. -/
abbrev Df : Type := List (String × List RawValue)

def digitsVal (cs : List Char) : Nat :=
  cs.foldl (fun a c => a * 10 + (c.toNat - 48)) 0

/-- A strict `YYYY-MM-DD` date with plausible month and day fields. -/
def validDateChars (cs : List Char) : Bool :=
  (cs.length == 10) && matchToks ymdToks cs &&
  (let m := digitsVal ((cs.drop 5).take 2)
   let dy := digitsVal (cs.drop 8)
   (1 ≤ m && m ≤ 12) && (1 ≤ dy && dy ≤ 31))

/-- A strict `YYYY-MM-DD HH:MM:SS` datetime with plausible fields. -/
def validDateTimeChars (cs : List Char) : Bool :=
  (cs.length == 19) && matchToks ymdHmsToks cs && validDateChars (cs.take 10) &&
  (let hh := digitsVal ((cs.drop 11).take 2)
   let mi := digitsVal ((cs.drop 14).take 2)
   let ss := digitsVal (cs.drop 17)
   hh ≤ 23 && mi ≤ 59 && ss ≤ 59)

/-- Partial model of `pd.to_datetime` on one scalar: missing values give NaT,
Timestamps pass through, ISO-style date and datetime strings parse to the
Timestamp with the matching isoformat text; other values (and other string
layouts, which the claims never exercise) are treated as unparseable. -/
def parseDT : RawValue → Option RawValue
  | .vNull => some .vNull
  | .vTimestamp iso => some (.vTimestamp iso)
  | .vStr s =>
      let cs := s.data
      if validDateChars cs then some (.vTimestamp (s ++ "T00:00:00"))
      else if validDateTimeChars cs then
        some (.vTimestamp (String.mk ((cs.take 10) ++ ('T' :: cs.drop 11))))
      else none
  | _ => none

/-- `pd.to_datetime(column, errors='ignore')`: if every value parses, the
column is converted; if any value fails to parse, the whole column is
returned unchanged. -/
def toDatetimeIgnore (vs : List RawValue) : List RawValue :=
  if vs.all (fun v => (parseDT v).isSome) then vs.map (fun v => (parseDT v).getD v) else vs

/-- The per-column mutation `_infer_schema` performs: columns whose inferred
format is `date`, `date-time` or `time` are rewritten with `to_datetime`. -/
def convertCol (p : String × List RawValue) : String × List RawValue :=
  let ti := infer_column_type p.2
  if ti.format = some "date" || ti.format = some "date-time" || ti.format = some "time" then
    (p.1, toDatetimeIgnore p.2)
  else p

/-- `_infer_schema(df)`: the per-column properties, together with the
dataframe as it stands after the in-place date conversions. -/
def infer_schema (df : Df) : List (String × TypeInfo) × Df :=
  (df.map (fun p => (p.1, infer_column_type p.2)), df.map convertCol)

/-- `df.iterrows()` followed by `row.to_dict()`: the dict rows of a column
major dataframe. -/
def rowsOf (df : Df) : List (List (String × RawValue)) :=
  (List.range (match df with | [] => 0 | p :: _ => p.2.length)).map
    (fun i => df.filterMap (fun p => (p.2[i]?).map (fun v => (p.1, v))))

def dfCols (df : Df) : List String := df.map (fun p => p.1)

def dfCol (df : Df) (c : String) : List RawValue :=
  ((df.find? (fun p => p.1 = c)).map (fun p => p.2)).getD []

/-! ### Python comparison and `Series.max` -/

/-- The comparison key of a Python scalar: booleans, integers and floats are
mutually comparable numbers; strings, Timestamps and Timedeltas each compare
only within their own class (Timestamps are ordered by their ISO text, which
agrees with chronological order for a fixed layout). -/
inductive PyKey where
  | num (q : ℚ)
  | str (s : String)
  | ts (s : String)
  | td (s : String)
deriving DecidableEq, Repr

def pyKey : RawValue → Option PyKey
  | .vNull => none
  | .vBool b => some (.num (if b then 1 else 0))
  | .vInt n => some (.num (n : ℚ))
  | .vFloat q => some (.num q)
  | .vStr s => some (.str s)
  | .vTimestamp iso => some (.ts iso)
  | .vTimedelta s => some (.td s)

def keyLe : PyKey → PyKey → Option Bool
  | .num a, .num b => some (decide (a ≤ b))
  | .str a, .str b => some (decide (a ≤ b))
  | .ts a, .ts b => some (decide (a ≤ b))
  | .td a, .td b => some (decide (a ≤ b))
  | _, _ => none

def pyLeKeys : Option PyKey → Option PyKey → Except String Bool
  | some a, some b =>
      match keyLe a b with
      | some r => .ok r
      | none => .error "TypeError: unsupported comparison"
  | _, _ => .error "TypeError: comparison with None"

/-- Python `v <= w` on scalars: a TypeError when either side is None-like or
the kinds are not mutually comparable. -/
def pyLeVal (v w : RawValue) : Except String Bool :=
  pyLeKeys (pyKey v) (pyKey w)

def pyMaxAux : RawValue → List RawValue → Except String RawValue
  | m, [] => .ok m
  | m, v :: vs =>
      match pyLeVal m v with
      | .error e => .error e
      | .ok b => pyMaxAux (if b then v else m) vs

/-- `Series.max()` with the default `skipna`: missing values are ignored; the
result is `none` (NaN) when no value remains. -/
def pyMax (vs : List RawValue) : Except String (Option RawValue) :=
  match vs.filter (fun v => !isNull v) with
  | [] => .ok none
  | v :: rest =>
      match pyMaxAux v rest with
      | .error e => .error e
      | .ok m => .ok (some m)

/-! ### Sync state and the sync loop -/

/-- The Singer state dict.  The sync filter reads the prior bookmark from the
top level (`state.get(sheet_name, {}).get('bookmark')`), while
`singer.write_bookmark` writes the new one under `state['bookmarks']`; the
two paths are kept as the two fields below. -/
structure SyncState where
  top : List (String × RawValue)
  bookmarks : List (String × RawValue)
deriving DecidableEq, Repr

def lookupVal (r : List (String × RawValue)) (c : String) : Option RawValue :=
  (r.find? (fun p => p.1 = c)).map (fun p => p.2)

/-- Python dict assignment `bm[name] = v`: replace the entry when the key is
present (dict keys are unique), append it otherwise. -/
def setBM : List (String × RawValue) → String → RawValue → List (String × RawValue)
  | [], name, v => [(name, v)]
  | p :: rest, name, v =>
      if p.1 = name then (p.1, v) :: rest else p :: setBM rest name v

/-- The per-row suppression test of the sync loop:
`bookmark_column and record.get(bookmark_column) and record[bookmark_column]
<= state.get(sheet_name, {}).get('bookmark')`.  A falsy key value short
circuits; otherwise the key value is compared against the prior bookmark,
which is a TypeError when no prior bookmark exists. -/
def shouldSkip : Option String → List (String × RawValue) → Option RawValue → Except String Bool
  | none, _, _ => .ok false
  | some c, r, prior =>
      if c = "" then .ok false
      else
        match lookupVal r c with
        | none => .ok false
        | some v =>
            if truthy v then
              match prior with
              | none => .error "TypeError: comparison with None"
              | some bv => pyLeVal v bv
            else .ok false

/-- The record loop of `sync`: clean each row, drop it when the bookmark test
says it was already synced, keep the rest in order. -/
def emitRows (bc : Option String) (prior : Option RawValue) :
    List (List (String × RawValue)) → Except String (List (List (String × RawValue)))
  | [] => .ok []
  | r :: rs =>
      match tapCleanRecord r with
      | .error e => .error e
      | .ok r' =>
          match shouldSkip bc r' prior with
          | .error e => .error e
          | .ok skip =>
              match emitRows bc prior rs with
              | .error e => .error e
              | .ok rest => .ok (if skip then rest else r' :: rest)

/-- Row cleaning alone, with no bookmark suppression. -/
def cleanRows : List (List (String × RawValue)) → Except String (List (List (String × RawValue)))
  | [] => .ok []
  | r :: rs =>
      match tapCleanRecord r with
      | .error e => .error e
      | .ok r' =>
          match cleanRows rs with
          | .error e => .error e
          | .ok rest => .ok (r' :: rest)

/-- `max_bookmark`: computed before the record loop, and only when a truthy
bookmark column is configured and present among the dataframe columns. -/
def computeMaxB (bc : Option String) (df : Df) : Except String (Option RawValue) :=
  match bc with
  | none => .ok none
  | some c =>
      if c = "" then .ok none
      else if c ∈ dfCols df then pyMax (dfCol df c)
      else .ok none

/-- Processing of one readable sheet inside `sync`: infer the schema (which
converts date-like columns in place), compute `max_bookmark`, run the record
loop, then update the state entry when `max_bookmark` is truthy. -/
def sync_sheet (bc : Option String) (st : SyncState) (name : String) (df0 : Df) :
    Except String (List (String × List (String × RawValue)) × SyncState) :=
  let df := (infer_schema df0).2
  match computeMaxB bc df with
  | .error e => .error e
  | .ok maxB =>
      match emitRows bc (lookupVal st.top name) (rowsOf df) with
      | .error e => .error e
      | .ok recs =>
          let st' :=
            match maxB with
            | some v => if truthy v then { st with bookmarks := setBM st.bookmarks name v } else st
            | none => st
          .ok (recs.map (fun r => (name, r)), st')

/-- The `sync` loop over the sheets to process.  Each sheet arrives as its
read result: a failed `pd.read_excel` is logged and skipped, a successful one
is processed by `sync_sheet`; an exception inside `sync_sheet` propagates and
aborts the run. -/
def sync (bc : Option String) (sheets : List (String × Except String Df)) (st : SyncState) :
    Except String (List (String × List (String × RawValue)) × SyncState) :=
  match sheets with
  | [] => .ok ([], st)
  | (_, .error _) :: rest => sync bc rest st
  | (n, .ok df) :: rest =>
      match sync_sheet bc st n df with
      | .error e => .error e
      | .ok (recs, st') =>
          match sync bc rest st' with
          | .error e => .error e
          | .ok (recs2, st'') => .ok (recs ++ recs2, st'')

/-- The `discover` loop: one stream per readable sheet, named after the
sheet, carrying the inferred per-column properties; failed reads are logged
and skipped. -/
def discover : List (String × Except String Df) → List (String × List (String × TypeInfo))
  | [] => []
  | (_, .error _) :: rest => discover rest
  | (n, .ok df) :: rest => (n, (infer_schema df).1) :: discover rest

/-! ### Helper lemmas -/

theorem matchToks_append (ts us : List Tok) (cs : List Char) :
    matchToks (ts ++ us) cs = true → matchToks ts cs = true := by
  induction ts generalizing cs with
  | nil => intro _; rfl
  | cons t ts ih =>
    cases t with
    | d n =>
      intro h
      simp only [List.cons_append, matchToks, Bool.and_eq_true] at h ⊢
      exact ⟨h.1, ih _ h.2⟩
    | lit c =>
      cases cs with
      | nil => intro h; simp [matchToks] at h
      | cons c' cs =>
        intro h
        simp only [List.cons_append, matchToks, Bool.and_eq_true] at h ⊢
        exact ⟨h.1, ih _ h.2⟩

/-- The last entry of the format table is dead: any string whose prefix
matches `YYYY-MM-DD HH:MM:SS` also prefix-matches `YYYY-MM-DD`, which comes
first, so the table scan can never return the date-time format. -/
theorem firstFormat_ne_datetime (strs : List String) : firstFormat strs ≠ some "date-time" := by
  have key : ∀ s : String, matchToks ymdHmsToks s.data = true → matchToks ymdToks s.data = true := by
    intro s hm
    apply matchToks_append ymdToks ([Tok.lit ' '] ++ hmsToks)
    rw [← List.append_assoc]
    exact hm
  simp only [firstFormat, dateFormats]
  cases h1 : strs.any (fun s => matchToks ymdToks s.data) with
  | true => simp [List.find?, h1]
  | false =>
    cases h2 : strs.any (fun s => matchToks mdySlashToks s.data) with
    | true => simp [List.find?, h1, h2]
    | false =>
      cases h3 : strs.any (fun s => matchToks ymdSlashToks s.data) with
      | true => simp [List.find?, h1, h2, h3]
      | false =>
        cases h4 : strs.any (fun s => matchToks mdyDashToks s.data) with
        | true => simp [List.find?, h1, h2, h3, h4]
        | false =>
          cases h5 : strs.any (fun s => matchToks ymdDotToks s.data) with
          | true => simp [List.find?, h1, h2, h3, h4, h5]
          | false =>
            cases h6 : strs.any (fun s => matchToks hmsToks s.data) with
            | true => simp [List.find?, h1, h2, h3, h4, h5, h6]
            | false =>
              cases h7 : strs.any (fun s => matchToks ymdHmsToks s.data) with
              | false => simp [List.find?, h1, h2, h3, h4, h5, h6, h7]
              | true =>
                exfalso
                obtain ⟨s, hs, hm⟩ := List.any_eq_true.mp h7
                have hd : strs.any (fun s => matchToks ymdToks s.data) = true :=
                  List.any_eq_true.mpr ⟨s, hs, key s hm⟩
                rw [h1] at hd
                exact Bool.false_ne_true hd

/-! ### C1 -/

/-- C1: the claim says a column with a sampled value matching
`YYYY-MM-DD HH:MM:SS` is classified date-time, never date.  On the code the
opposite happens: `Series.str.match` anchors at the start only, so the
datetime string prefix-matches the `YYYY-MM-DD` pattern, which is tested
first, and the column is classified `date`. -/
theorem c1_text_datetime_column_classified_date :
    infer_column_type [.vStr "2023-01-02 03:04:05"] =
      ⟨["null", "string"], some "date", some "date", some "object"⟩ := by
  rfl

/-! ### C5 -/

/-- C5 counterexample: a two-value integer column with no nulls gets the type
list `["null", "integer", "string"]`, not the `["integer"]` the claim
requires ("null" appears although no null was observed, and a "string"
fallback is appended). -/
theorem c5_counterexample :
    (infer_column_type [.vInt 1, .vInt 2]).type = ["null", "integer", "string"] ∧
    (infer_column_type [.vInt 1, .vInt 2]).type ≠ ["integer"] := by
  exact ⟨rfl, by decide⟩

/-- The format scan only ever reports one of the three labels of the table. -/
theorem firstFormat_mem (strs : List String) (f : String) :
    firstFormat strs = some f → f = "date" ∨ f = "time" ∨ f = "date-time" := by
  intro h
  unfold firstFormat at h
  cases hf : dateFormats.find? (fun pf => strs.any fun s => matchToks pf.1 s.data) with
  | none => rw [hf] at h; simp at h
  | some pf =>
    rw [hf] at h
    have h2 : pf.2 = f := Option.some.inj h
    have hm := List.mem_of_find?_eq_some hf
    rw [dateFormats] at hm
    fin_cases hm <;> rw [← h2] <;> simp

/-- C5 amended: every inferred type list begins with "null" whether or not a
null was observed, and a numeric column carries a trailing "string" fallback
after its numeric kind. -/
theorem c5_null_first_and_string_fallback (vs : List RawValue) :
    (infer_column_type vs).type.head? = some "null" ∧
    ((infer_column_type vs).inferredType = some "integer" →
      (infer_column_type vs).type = ["null", "integer", "string"]) ∧
    ((infer_column_type vs).inferredType = some "number" →
      (infer_column_type vs).type = ["null", "number", "string"]) := by
  unfold infer_column_type
  split
  · exact ⟨rfl, by simp, by simp⟩
  · split
    · exact ⟨rfl, by simp, by simp⟩
    · split
      · exact ⟨rfl, by simp, by simp⟩
      · split
        · rename_i fmt heq
          have hf := firstFormat_mem _ _ heq
          refine ⟨rfl, ?_, ?_⟩ <;> intro hx <;>
            · exfalso
              rw [Option.some.inj hx] at hf
              rcases hf with h | h | h <;> simp_all
        · split
          · exact ⟨rfl, by simp, by simp⟩
          · split
            · split
              · exact ⟨rfl, fun _ => rfl, by simp⟩
              · exact ⟨rfl, by simp, fun _ => rfl⟩
            · exact ⟨rfl, by simp, by simp⟩

/-- C5 witness: the amended theorem applied to a concrete integer column. -/
theorem c5_null_first_and_string_fallback_witness :
    (infer_column_type [RawValue.vInt 1]).type = ["null", "integer", "string"] :=
  (c5_null_first_and_string_fallback [RawValue.vInt 1]).2.1 rfl

/-! ### C8 -/

theorem roundHalfEven_intCast (z : ℤ) : roundHalfEven (z : ℚ) = z := by
  have h1 : ((z : ℚ) - ⌊(z : ℚ)⌋ < 1/2) := by
    rw [Int.floor_intCast]
    norm_num
  simp only [roundHalfEven]
  rw [if_pos h1, Int.floor_intCast]

theorem roundTo_roundTo (p : ℤ) (q : ℚ) : roundTo p (roundTo p q) = roundTo p q := by
  unfold roundTo
  have hp : (10 : ℚ) ^ p ≠ 0 := zpow_ne_zero _ (by norm_num)
  rw [div_mul_cancel₀ _ hp, roundHalfEven_intCast]

theorem cleanValue_idem (p : ℤ) (v : RawValue) :
    cleanValue p (cleanValue p v) = cleanValue p v := by
  cases v <;> simp [cleanValue, roundTo_roundTo]

/-- C8: record cleaning is idempotent.  Cleaning an already-cleaned record
returns it unchanged: null stays null, the isoformat strings produced for
Timestamps and Timedeltas pass through the string branch, a float already
rounded to the configured precision is unchanged by rounding again, and all
other kinds pass through. -/
theorem c8_clean_record_idempotent (p : ℤ) (r : List (String × RawValue)) :
    clean_record p (clean_record p r) = clean_record p r := by
  induction r with
  | nil => rfl
  | cons kv r ih =>
    simp only [clean_record, List.map_cons, List.map_map] at ih ⊢
    rw [cleanValue_idem]
    exact congrArg _ (by simpa [clean_record] using ih)

/-! ### C7 -/

/-- C7 counterexample: inference does mutate the dataframe.  A text column
holding `2023-01-02` is classified with format `date` and then rewritten in
place by `to_datetime`: after `_infer_schema` the column holds a Timestamp,
not the original string. -/
theorem c7_counterexample :
    (infer_schema [("d", [RawValue.vStr "2023-01-02"])]).2 ≠
      [("d", [RawValue.vStr "2023-01-02"])] ∧
    (infer_schema [("d", [RawValue.vStr "2023-01-02"])]).2 =
      [("d", [RawValue.vTimestamp "2023-01-02T00:00:00"])] :=
  ⟨by decide, rfl⟩

/-- C7 amended: `_infer_schema` rewrites in place exactly the columns whose
inferred format is `date`, `date-time` or `time`; every other column keeps
its original value sequence unchanged. -/
theorem c7_non_date_columns_unchanged (df : Df) (i : Nat) (n : String) (vs : List RawValue)
    (hget : df[i]? = some (n, vs))
    (hfmt : (infer_column_type vs).format ≠ some "date" ∧
            (infer_column_type vs).format ≠ some "date-time" ∧
            (infer_column_type vs).format ≠ some "time") :
    ((infer_schema df).2)[i]? = some (n, vs) := by
  show (df.map convertCol)[i]? = some (n, vs)
  rw [List.getElem?_map, hget]
  show some (convertCol (n, vs)) = some (n, vs)
  unfold convertCol
  rw [if_neg]
  intro hcond
  simp only [Bool.or_eq_true, decide_eq_true_eq] at hcond
  rcases hcond with (h | h) | h
  · exact hfmt.1 h
  · exact hfmt.2.1 h
  · exact hfmt.2.2 h

/-- C7 witness: an integer column (no inferred format) survives inference
unchanged. -/
theorem c7_non_date_columns_unchanged_witness :
    ((infer_schema [("a", [RawValue.vInt 1])]).2)[0]? = some ("a", [RawValue.vInt 1]) :=
  c7_non_date_columns_unchanged [("a", [RawValue.vInt 1])] 0 "a" [RawValue.vInt 1] rfl
    (by refine ⟨?_, ?_, ?_⟩ <;> decide)

/-! ### C4 -/

/-- Two sheets with identical ordered column names `(id, name)` and row
counts 3 and 5, as in the grouping example of the claim. -/
def dfA4 : Df :=
  [("id", [.vInt 1, .vInt 2, .vInt 3]), ("name", [.vStr "x", .vStr "y", .vStr "z"])]

def dfB4 : Df :=
  [("id", [.vInt 4, .vInt 5, .vInt 6, .vInt 7, .vInt 8]),
   ("name", [.vStr "p", .vStr "q", .vStr "r", .vStr "u", .vStr "w"])]

def sheets4 : List (String × Except String Df) := [("a", .ok dfA4), ("b", .ok dfB4)]

/-- The stream tags of the records a sync run emits. -/
def emittedStreams (r : Except String (List (String × List (String × RawValue)) × SyncState)) :
    List String :=
  match r with
  | .ok pr => pr.1.map (fun p => p.1)
  | .error _ => []

/-- C4 counterexample: two sheets with identical ordered column-name tuples
are not merged.  Discovery yields two streams named after the two sheets (no
stream named with the underscore join), and sync emits the 3 and 5 rows
under the two separate stream names. -/
theorem c4_counterexample :
    (discover sheets4).map (fun p => p.1) = ["a", "b"] ∧
    ((discover sheets4).map (fun p => p.1)).contains "a_b" = false ∧
    emittedStreams (sync none sheets4 ⟨[], []⟩) = ["a", "a", "a", "b", "b", "b", "b", "b"] := by
  refine ⟨rfl, by decide, rfl⟩

/-- C4 amended: sheets are never merged.  Every readable sheet becomes
exactly one stream named after that sheet, whether or not its column-name
tuple coincides with another sheet. -/
theorem c4_one_stream_per_readable_sheet (sheets : List (String × Except String Df)) :
    (discover sheets).map (fun p => p.1) =
      sheets.filterMap (fun p => match p.2 with | .ok _ => some p.1 | .error _ => none) := by
  induction sheets with
  | nil => rfl
  | cons p rest ih =>
    obtain ⟨n, r⟩ := p
    cases r with
    | error e => simpa [discover] using ih
    | ok df => simpa [discover] using ih

/-! ### C2 and C3 -/

theorem tapCleanRecord_keys (r r' : List (String × RawValue)) :
    tapCleanRecord r = .ok r' → r'.map (fun p => p.1) = r.map (fun p => p.1) := by
  induction r generalizing r' with
  | nil => intro h; cases h; rfl
  | cons kv rest ih =>
    intro h
    obtain ⟨k, v⟩ := kv
    unfold tapCleanRecord at h
    cases hv : tapCleanValue v with
    | error e => rw [hv] at h; cases h
    | ok v' =>
      rw [hv] at h
      cases hr : tapCleanRecord rest with
      | error e => rw [hr] at h; cases h
      | ok rest' =>
        rw [hr] at h
        cases h
        simpa using ih rest' hr

theorem rowsOf_keys (df : Df) :
    ∀ r ∈ rowsOf df, ∀ p ∈ r, p.1 ∈ dfCols df := by
  intro r hr p hp
  unfold rowsOf at hr
  obtain ⟨i, _, hi⟩ := List.mem_map.mp hr
  rw [← hi] at hp
  obtain ⟨q, hq, hq2⟩ := List.mem_filterMap.mp hp
  cases hv : q.2[i]? with
  | none => rw [hv] at hq2; cases hq2
  | some v =>
    rw [hv] at hq2
    have hqp : (q.1, v) = p := Option.some.inj hq2
    rw [← hqp]
    exact List.mem_map_of_mem _ hq

theorem lookupVal_eq_none (r : List (String × RawValue)) (c : String)
    (h : ∀ p ∈ r, p.1 ≠ c) : lookupVal r c = none := by
  unfold lookupVal
  rw [List.find?_eq_none.mpr]
  · rfl
  · intro p hp
    simpa using h p hp

/-- With the bookmark column absent from every row dict, the record loop
suppresses nothing and reduces to plain cleaning. -/
theorem emitRows_no_key (c : String) (prior : Option RawValue)
    (rows : List (List (String × RawValue)))
    (hkeys : ∀ r ∈ rows, ∀ p ∈ r, p.1 ≠ c) :
    emitRows (some c) prior rows = cleanRows rows := by
  induction rows with
  | nil => rfl
  | cons r rs ih =>
    simp only [emitRows, cleanRows]
    cases hcr : tapCleanRecord r with
    | error e => rfl
    | ok r' =>
      have hkeys' : ∀ p ∈ r', p.1 ≠ c := by
        intro p hp
        have hmem : p.1 ∈ r'.map (fun p => p.1) := List.mem_map_of_mem _ hp
        rw [tapCleanRecord_keys _ _ hcr] at hmem
        obtain ⟨q, hq, hq2⟩ := List.mem_map.mp hmem
        rw [← hq2]
        exact hkeys r (by simp) q hq
      have hskip : shouldSkip (some c) r' prior = .ok false := by
        simp only [shouldSkip]
        rw [lookupVal_eq_none r' c hkeys']
        split <;> rfl
      dsimp only
      rw [hskip, ih (fun r2 h2 => hkeys r2 (by simp [h2]))]
      cases cleanRows rs <;> rfl

/-- C2 counterexample: a sync run whose configured bookmark column `k` is
absent from the sheet does not abort.  It succeeds, emits the row, and
leaves the state untouched. -/
theorem c2_counterexample :
    sync (some "k") [("s", .ok [("a", [RawValue.vInt 1])])] ⟨[], []⟩ =
      .ok ([("s", [("a", RawValue.vInt 1)])], ⟨[], []⟩) := rfl

/-- C2 amended: when the configured replication key is absent from a sheet,
the run does not abort; bookmarking is silently skipped for that stream (all
rows are emitted, nothing is suppressed, and the state is unchanged), and
processing continues. -/
theorem c2_missing_key_skips_bookmarking (c name : String) (st : SyncState) (df0 : Df)
    (rs : List (List (String × RawValue)))
    (hc : ¬c = "")
    (habs : c ∉ dfCols (infer_schema df0).2)
    (hrows : cleanRows (rowsOf (infer_schema df0).2) = .ok rs) :
    sync_sheet (some c) st name df0 = .ok (rs.map (fun r => (name, r)), st) := by
  have hmax : computeMaxB (some c) (infer_schema df0).2 = .ok none := by
    simp only [computeMaxB]
    rw [if_neg hc, if_neg habs]
  have hkeys : ∀ r ∈ rowsOf (infer_schema df0).2, ∀ p ∈ r, p.1 ≠ c := by
    intro r hr p hp hpc
    exact habs (hpc ▸ rowsOf_keys _ r hr p hp)
  simp only [sync_sheet]
  rw [hmax]
  dsimp only
  rw [emitRows_no_key c _ _ hkeys, hrows]

/-- C2 witness: the amended theorem at a one-row sheet with an absent
bookmark column. -/
theorem c2_missing_key_skips_bookmarking_witness :
    sync_sheet (some "k") ⟨[], []⟩ "s" [("a", [RawValue.vInt 1])] =
      .ok ([("s", [("a", RawValue.vInt 1)])], ⟨[], []⟩) :=
  c2_missing_key_skips_bookmarking "k" "s" ⟨[], []⟩ [("a", [RawValue.vInt 1])]
    [[("a", RawValue.vInt 1)]] (by decide) (by decide) rfl

/-- C3: on a run with a configured replication key present in the sheet but
no prior bookmark stored, the sync loop evaluates
`record[bookmark_column] <= None` and the whole run aborts with a TypeError
instead of emitting the rows. -/
theorem c3_first_run_crashes :
    sync (some "id") [("s", .ok [("id", [RawValue.vInt 1])])] ⟨[], []⟩ =
      .error "TypeError: comparison with None" := rfl

/-! ### C10 -/

/-- C10: a row whose cleaned replication-key value is falsy (None, 0, 0.0 or
the empty string) is never suppressed: the truthiness test short-circuits
before the bookmark comparison, for every prior bookmark (including one the
value would compare less-or-equal to, and including a missing one). -/
theorem c10_falsy_key_always_emitted (c : String) (r : List (String × RawValue))
    (prior : Option RawValue) (v : RawValue)
    (hv : lookupVal r c = some v)
    (hfalsy : v = .vNull ∨ v = .vInt 0 ∨ v = .vFloat 0 ∨ v = .vStr "") :
    shouldSkip (some c) r prior = .ok false := by
  have ht : truthy v = false := by
    rcases hfalsy with h | h | h | h <;> subst h <;> rfl
  simp only [shouldSkip]
  split
  · rfl
  · rw [hv]
    simp only [ht]
    rfl

/-- C10 witness: a zero key value with a larger prior bookmark present is
still emitted. -/
theorem c10_falsy_key_always_emitted_witness :
    shouldSkip (some "id") [("id", RawValue.vInt 0)] (some (RawValue.vInt 5)) = .ok false :=
  c10_falsy_key_always_emitted "id" [("id", RawValue.vInt 0)] (some (RawValue.vInt 5))
    (RawValue.vInt 0) rfl (Or.inr (Or.inl rfl))

/-! ### C9 -/

/-- C9: a failed sheet read is recovered locally.  A run over a sheet list
containing an unreadable sheet equals the run with that sheet removed: the
failed stream produces no records, and every other sheet still produces its
full records and state. -/
theorem c9_failed_sheet_skipped (bc : Option String) (xs ys : List (String × Except String Df))
    (n e : String) (st : SyncState) :
    sync bc (xs ++ (n, Except.error e) :: ys) st = sync bc (xs ++ ys) st := by
  induction xs generalizing st with
  | nil => simp [sync]
  | cons p rest ih =>
    obtain ⟨m, r⟩ := p
    cases r with
    | error e2 => simpa [sync] using ih st
    | ok df =>
      simp only [List.cons_append, sync]
      cases hs : sync_sheet bc st m df with
      | error e2 => rfl
      | ok pr =>
        obtain ⟨recs, st'⟩ := pr
        dsimp only
        have ih' : sync bc (rest.append ((n, Except.error e) :: ys)) st' =
            sync bc (rest.append ys) st' := ih st'
        rw [ih']

/-! ### C6 -/

theorem keyLe_refl (k : PyKey) : keyLe k k = some true := by
  cases k <;> simp [keyLe]

theorem keyLe_trans {a b c : PyKey} (h1 : keyLe a b = some true) (h2 : keyLe b c = some true) :
    keyLe a c = some true := by
  cases a <;> cases b <;> cases c <;> simp_all [keyLe] <;>
    exact le_trans (by assumption) (by assumption)

theorem decide_le_swap {α : Type} [LinearOrder α] {x y : α} (h : decide (x ≤ y) = false) :
    decide (y ≤ x) = true := by
  simp at h ⊢
  exact le_of_lt h

theorem keyLe_false_swap {a b : PyKey} (h : keyLe a b = some false) : keyLe b a = some true := by
  cases a <;> cases b <;> simp only [keyLe] at h ⊢ <;>
    first
    | cases h
    | exact congrArg some (decide_le_swap (Option.some.inj h))

theorem isNull_false_of_key {v : RawValue} {a : PyKey} (h : pyKey v = some a) :
    isNull v = false := by
  cases v <;> simp_all [pyKey, isNull]

theorem pyKey_isSome_of_not_null {v : RawValue} (h : isNull v = false) :
    ∃ k, pyKey v = some k := by
  cases v
  · simp [isNull] at h
  all_goals exact ⟨_, rfl⟩

theorem pyLeVal_ok_keys {v w : RawValue} {b : Bool} (h : pyLeVal v w = .ok b) :
    ∃ a k, pyKey v = some a ∧ pyKey w = some k ∧ keyLe a k = some b := by
  unfold pyLeVal at h
  cases hv : pyKey v with
  | none => rw [hv] at h; simp [pyLeKeys] at h
  | some a =>
    cases hw : pyKey w with
    | none => rw [hv, hw] at h; simp [pyLeKeys] at h
    | some k =>
      rw [hv, hw] at h
      simp only [pyLeKeys] at h
      cases hk : keyLe a k with
      | none => rw [hk] at h; cases h
      | some r =>
        rw [hk] at h
        cases h
        exact ⟨a, k, rfl, rfl, hk⟩

theorem pyLeVal_of_keys {v w : RawValue} {a k : PyKey} {b : Bool} (hv : pyKey v = some a)
    (hw : pyKey w = some k) (hk : keyLe a k = some b) : pyLeVal v w = .ok b := by
  unfold pyLeVal
  rw [hv, hw]
  simp [pyLeKeys, hk]

theorem pyLeVal_refl {v : RawValue} (h : isNull v = false) : pyLeVal v v = .ok true := by
  obtain ⟨k, hk⟩ := pyKey_isSome_of_not_null h
  exact pyLeVal_of_keys hk hk (keyLe_refl k)

theorem pyLeVal_trans {u v w : RawValue} (h1 : pyLeVal u v = .ok true)
    (h2 : pyLeVal v w = .ok true) : pyLeVal u w = .ok true := by
  obtain ⟨a, k1, ha, hk1, hle1⟩ := pyLeVal_ok_keys h1
  obtain ⟨k1', k2, hk1', hk2, hle2⟩ := pyLeVal_ok_keys h2
  rw [hk1] at hk1'
  rw [← Option.some.inj hk1'] at hle2
  exact pyLeVal_of_keys ha hk2 (keyLe_trans hle1 hle2)

theorem pyLeVal_false_swap {v w : RawValue} (h : pyLeVal v w = .ok false) :
    pyLeVal w v = .ok true := by
  obtain ⟨a, k, ha, hk, hke⟩ := pyLeVal_ok_keys h
  exact pyLeVal_of_keys hk ha (keyLe_false_swap hke)

/-- The result of the running-maximum fold bounds its seed and every element
it consumed. -/
theorem pyMaxAux_ub (vs : List RawValue) (v m : RawValue) (hv : isNull v = false)
    (h : pyMaxAux v vs = .ok m) :
    pyLeVal v m = .ok true ∧ ∀ w ∈ vs, pyLeVal w m = .ok true := by
  induction vs generalizing v with
  | nil =>
    cases h
    exact ⟨pyLeVal_refl hv, fun w hw => absurd hw (List.not_mem_nil w)⟩
  | cons w ws ih =>
    simp only [pyMaxAux] at h
    split at h
    · cases h
    · rename_i b hle
      obtain ⟨a2, k2, _, hkw, _⟩ := pyLeVal_ok_keys hle
      have hw0 : isNull w = false := isNull_false_of_key hkw
      have hv' : isNull (if b then w else v) = false := by
        cases b <;> simp [hv, hw0]
      obtain ⟨hm1, hm2⟩ := ih (if b then w else v) hv' h
      cases b with
      | true =>
        simp at hm1
        refine ⟨pyLeVal_trans hle hm1, ?_⟩
        intro x hx
        rcases List.mem_cons.mp hx with h1 | h1
        · subst h1; exact hm1
        · exact hm2 x h1
      | false =>
        simp at hm1
        refine ⟨hm1, ?_⟩
        intro x hx
        rcases List.mem_cons.mp hx with h1 | h1
        · subst h1; exact pyLeVal_trans (pyLeVal_false_swap hle) hm1
        · exact hm2 x h1

/-- `Series.max` bounds every non-null value of the column. -/
theorem pyMax_ub {vs : List RawValue} {m : RawValue} (h : pyMax vs = .ok (some m)) :
    ∀ w ∈ vs, isNull w = false → pyLeVal w m = .ok true := by
  intro w hw hwn
  unfold pyMax at h
  split at h
  · cases h
  · rename_i v rest hfilter
    split at h
    · cases h
    · rename_i m2 haux
      have hm : m2 = m := by
        have h2 := h
        simp at h2
        exact h2
      rw [hm] at haux
      have hvmem : v ∈ vs.filter (fun v => !isNull v) := by
        rw [hfilter]
        exact List.mem_cons_self v rest
      have hvn : isNull v = false := by
        have := (List.mem_filter.mp hvmem).2
        simpa using this
      obtain ⟨h1, h2⟩ := pyMaxAux_ub rest v m hvn haux
      have hwf : w ∈ vs.filter (fun v => !isNull v) :=
        List.mem_filter.mpr ⟨hw, by simp [hwn]⟩
      rw [hfilter] at hwf
      rcases List.mem_cons.mp hwf with h3 | h3
      · subst h3; exact h1
      · exact h2 w h3

theorem lookupVal_setBM_self (bm : List (String × RawValue)) (name : String) (v : RawValue) :
    lookupVal (setBM bm name v) name = some v := by
  induction bm with
  | nil => simp [setBM, lookupVal, List.find?]
  | cons p rest ih =>
    by_cases hp : p.1 = name
    · simp [setBM, hp, lookupVal, List.find?]
    · rw [setBM, if_neg hp]
      unfold lookupVal at ih ⊢
      rw [List.find?_cons_of_neg _ (by simpa using hp)]
      exact ih

theorem lookupVal_setBM_other (bm : List (String × RawValue)) (name s : String) (v : RawValue)
    (h : s ≠ name) : lookupVal (setBM bm name v) s = lookupVal bm s := by
  have hns : ¬name = s := fun hh => h hh.symm
  induction bm with
  | nil =>
    show lookupVal [(name, v)] s = lookupVal [] s
    unfold lookupVal
    rw [List.find?_cons_of_neg _ (by simpa using hns)]
  | cons p rest ih =>
    by_cases hp : p.1 = name
    · rw [setBM, if_pos hp]
      have hps : ¬p.1 = s := by rw [hp]; exact hns
      unfold lookupVal
      rw [List.find?_cons_of_neg _ (by simpa using hps),
          List.find?_cons_of_neg _ (by simpa using hps)]
    · rw [setBM, if_neg hp]
      unfold lookupVal at ih ⊢
      by_cases hps : p.1 = s
      · rw [List.find?_cons_of_pos _ (by simpa using hps),
            List.find?_cons_of_pos _ (by simpa using hps)]
      · rw [List.find?_cons_of_neg _ (by simpa using hps),
            List.find?_cons_of_neg _ (by simpa using hps)]
        exact ih

/-- C6: on a successfully processed sheet whose configured replication key is
present, the state update is the one the claim describes.  The top-level
entries are untouched and every other stream's bookmark entry is unchanged
(so the entry for this stream is replaced at most once per run); when a new
bookmark is written it is exactly `Series.max` of the full key column -
computed before the record loop and over every scanned row - and that value
bounds the key of every non-null row of the sheet, including the rows the
bookmark filter suppressed from emission. -/
theorem c6_bookmark_is_full_column_max (c name : String) (st : SyncState) (df0 : Df)
    (out : List (String × List (String × RawValue)) × SyncState)
    (hc : ¬c = "")
    (hin : c ∈ dfCols (infer_schema df0).2)
    (hok : sync_sheet (some c) st name df0 = .ok out) :
    out.2.top = st.top ∧
    (∀ s, s ≠ name → lookupVal out.2.bookmarks s = lookupVal st.bookmarks s) ∧
    (out.2 = st ∨
      ∃ v, pyMax (dfCol (infer_schema df0).2 c) = .ok (some v) ∧ truthy v = true ∧
        lookupVal out.2.bookmarks name = some v) ∧
    (∀ v, pyMax (dfCol (infer_schema df0).2 c) = .ok (some v) →
      ∀ w ∈ dfCol (infer_schema df0).2 c, isNull w = false → pyLeVal w v = .ok true) := by
  have hcm : computeMaxB (some c) (infer_schema df0).2 =
      pyMax (dfCol (infer_schema df0).2 c) := by
    simp only [computeMaxB]
    rw [if_neg hc, if_pos hin]
  simp only [sync_sheet] at hok
  rw [hcm] at hok
  split at hok
  · cases hok
  · rename_i maxB hmax
    split at hok
    · cases hok
    · rename_i recs hemit
      cases hok
      refine ⟨?_, ?_, ?_, fun v hv w hw hwn => pyMax_ub hv w hw hwn⟩
      · cases maxB with
        | none => rfl
        | some v => cases ht : truthy v <;> simp [ht]
      · intro s hs
        cases maxB with
        | none => rfl
        | some v =>
          cases ht : truthy v with
          | false => simp [ht]
          | true => simp [ht, lookupVal_setBM_other st.bookmarks name s v hs]
      · cases maxB with
        | none => exact Or.inl rfl
        | some v =>
          cases ht : truthy v with
          | false => exact Or.inl (by simp [ht])
          | true =>
            refine Or.inr ⟨v, hmax, ht, ?_⟩
            simp [ht, lookupVal_setBM_self st.bookmarks name v]

/-- C6 witness: a sheet with key values 1 and 2 and a prior bookmark of 1.
The row with key 1 is suppressed, yet the new bookmark is 2, the maximum
over both rows, and it bounds the suppressed row's key as well. -/
theorem c6_bookmark_is_full_column_max_witness :
    lookupVal (SyncState.mk [("s", RawValue.vInt 1)] [("s", RawValue.vInt 2)]).bookmarks "s" =
      some (RawValue.vInt 2) ∧
    pyLeVal (RawValue.vInt 1) (RawValue.vInt 2) = .ok true := by
  have h := c6_bookmark_is_full_column_max "id" "s" ⟨[("s", RawValue.vInt 1)], []⟩
    [("id", [RawValue.vInt 1, RawValue.vInt 2])]
    ([("s", [("id", RawValue.vInt 2)])], ⟨[("s", RawValue.vInt 1)], [("s", RawValue.vInt 2)]⟩)
    (by decide) (by decide) rfl
  refine ⟨?_, ?_⟩
  · rcases h.2.2.1 with he | ⟨v, hv, _, hl⟩
    · exact absurd he (by decide)
    · have hv2 : pyMax (dfCol (infer_schema [("id", [RawValue.vInt 1, RawValue.vInt 2])]).2 "id") =
          Except.ok (some (RawValue.vInt 2)) := rfl
      rw [hv] at hv2
      have hveq : v = RawValue.vInt 2 := Option.some.inj (Except.ok.inj hv2)
      rw [hveq] at hl
      exact hl
  · exact h.2.2.2 (RawValue.vInt 2) rfl (RawValue.vInt 1) (by decide) rfl

end TapExcel
